import Mathlib

/-!
Shallow embedding of the spoken-numeral converters of ai_code/peech_utils.py:
cn2an (Chinese positional reconstructor), en2an (English multiplicative
accumulator) and ar2an (Arabic multiplicative accumulator).

Python strings are modelled as Lean String / List Char, Python integers as Int
(tables hold Nat values, all nonnegative in the source). cn2an returns either
the integer -1 or a digit string in Python; that union is modelled as
Option String with none standing for the -1 sentinel. en2an and ar2an return
plain integers, so they keep the Int return type with the literal -1 sentinel.
-/

/-- Coefficient table CN_NUM of the source (character to digit value),
including the homophone aliases. -/
def CN_NUM : Char → Option Nat
  | '〇' => some 0
  | '一' => some 1
  | '二' => some 2
  | '三' => some 3
  | '四' => some 4
  | '五' => some 5
  | '六' => some 6
  | '七' => some 7
  | '八' => some 8
  | '九' => some 9
  | '零' => some 0
  | '壹' => some 1
  | '贰' => some 2
  | '叁' => some 3
  | '肆' => some 4
  | '伍' => some 5
  | '陆' => some 6
  | '柒' => some 7
  | '捌' => some 8
  | '玖' => some 9
  | '貮' => some 2
  | '两' => some 2
  | '俩' => some 2
  | '倆' => some 2
  | '营' => some 0
  | '其' => some 7
  | '西' => some 7
  | '气' => some 7
  | '吧' => some 8
  | '就' => some 9
  | _ => none

/-- Base table CN_UNIT of the source. Only the magnitudes 10 and 100 are
defined; the larger scale words are commented out in the source. -/
def CN_UNIT : Char → Option Nat
  | '十' => some 10
  | '拾' => some 10
  | '是' => some 10
  | '实' => some 10
  | '时' => some 10
  | '百' => some 100
  | '佰' => some 100
  | _ => none

/-- Models the source branch that tests d.isnumeric() and then applies int(d):
a Unicode decimal digit parses to its value, while a numeric character that is
not a decimal digit raises ValueError and is therefore skipped (none here).
The ASCII digits and the Arabic-Indic digits are enumerated as the
decimal-digit ranges; the remaining Unicode decimal-digit blocks behave the
same way and occur neither in the repository nor in the claims. -/
def pyDigitValue (c : Char) : Option Nat :=
  if '0' ≤ c ∧ c ≤ '9' then some (c.toNat - 48)
  else if '٠' ≤ c ∧ c ≤ '٩' then some (c.toNat - 1632)
  else none

/-- Classification of one character during the reverse scan of cn2an:
coefficient table first, then base table, then the numeric-digit branch. -/
def charValue (c : Char) : Option Nat :=
  match CN_NUM c with
  | some v => some v
  | none =>
    match CN_UNIT c with
    | some v => some v
    | none => pyDigitValue c

/-- The list tmp of cn2an: the input is scanned from its last character to its
first and every character contributes its table or digit value; characters
recognized by none of the three classifiers are dropped. -/
def cnTokenize (cs : List Char) : List Nat :=
  cs.reverse.filterMap charValue

/-- Fuel-based body of the tmp2 construction of cn2an. The source walks tmp
with an index i: a value above 9 (a base) is emitted together with a leading 1
when it is the last entry or the next entry is a strictly larger base; when the
next entry is also a base of magnitude at most the current one, the next entry
is multiplied in place and nothing is emitted for the current one; when the
next entry is a digit, the base is emitted alone. Digits are copied through.
Fuel equal to the list length is always sufficient. -/
def cnNormalizeAux : Nat → List Nat → List Nat
  | 0, l => l
  | _ + 1, [] => []
  | _ + 1, [t] => if 9 < t then [t, 1] else [t]
  | fuel + 1, t :: t2 :: rest =>
    if 9 < t then
      if t < t2 then t :: 1 :: cnNormalizeAux fuel (t2 :: rest)
      else if 9 < t2 then cnNormalizeAux fuel (t * t2 :: rest)
      else t :: cnNormalizeAux fuel (t2 :: rest)
    else t :: cnNormalizeAux fuel (t2 :: rest)

/-- The list tmp2 of cn2an. -/
def cnNormalize (l : List Nat) : List Nat :=
  cnNormalizeAux l.length l

/-- Fuel-based base-10 logarithm. -/
def log10Aux : Nat → Nat → Nat
  | 0, _ => 0
  | fuel + 1, n => if n < 10 then 0 else log10Aux fuel (n / 10) + 1

/-- Models math.log10 on the arguments it receives in cn2an: every base value
reaching the seq loop is a product of entries of CN_UNIT, hence an exact power
of ten, on which math.log10 returns the exponent exactly. -/
def log10 (n : Nat) : Nat := log10Aux n n

/-- The seq construction of cn2an: a digit advances the position counter and
appends itself; a base of magnitude 10 ^ w appends a -1 placeholder for every
position still missing below w (the inner while loop), leaving the counter at
max curW w. -/
def cnAssemble : List Nat → Nat → List Int
  | [], _ => []
  | t :: rest, curW =>
    if 9 < t then
      List.replicate (log10 t - curW) (-1) ++ cnAssemble rest (max curW (log10 t))
    else (t : Int) :: cnAssemble rest (curW + 1)

/-- Fuel-based body of the while loop searching the first index p at or after
the start index whose slot is not the -1 placeholder (stopping also at the end
of the list). Fuel equal to the list length is always sufficient. -/
def cnScanFromAux : Nat → List Int → Nat → Nat
  | 0, _, p => p
  | fuel + 1, seq, p =>
    if seq.get? p = some (-1) then cnScanFromAux fuel seq (p + 1) else p

/-- The scan of the fixup rule of cn2an, starting at index p. -/
def cnScanFrom (seq : List Int) (p : Nat) : Nat :=
  cnScanFromAux seq.length seq p

/-- The fixup rule of cn2an: when the first slot holds a nonzero digit, the
list has more than one slot and the second slot is the -1 placeholder, the
first non-placeholder position p is located and the first slot value is moved
to position p - 1, the first slot becoming 0. The source indexes seq[0]
unconditionally, so the empty case never occurs when called from cn2an. -/
def cnFixup (seq : List Int) : List Int :=
  match seq with
  | [] => []
  | s0 :: rest =>
    if 0 < s0 ∧ 1 < (s0 :: rest).length ∧ (s0 :: rest).get? 1 = some (-1) then
      ((s0 :: rest).set (cnScanFrom (s0 :: rest) 1 - 1) s0).set 0 0
    else s0 :: rest

/-- The final rendering of cn2an: seq is reversed, every slot is printed with
str after replacing a negative slot by 0, and the pieces are concatenated. -/
def cnRender (seq : List Int) : String :=
  String.mk (((seq.reverse).map (fun n => (toString (if 0 ≤ n then n else 0)).data)).flatten)

/-- cn2an of the source: tokenize in reverse, fail with the sentinel when
nothing was recognized (modelled as none), otherwise normalize, assemble,
apply the fixup rule and render. -/
def cn2an (s : String) : Option String :=
  if cnTokenize s.data = [] then none
  else some (cnRender (cnFixup (cnAssemble (cnNormalize (cnTokenize s.data)) 0)))

/-- Coefficient table EN_NUM of the source (individual digits and the
irregular words up to nineteen). -/
def EN_NUM : String → Option Nat
  | "zero" => some 0
  | "one" => some 1
  | "two" => some 2
  | "three" => some 3
  | "four" => some 4
  | "five" => some 5
  | "six" => some 6
  | "seven" => some 7
  | "eight" => some 8
  | "nine" => some 9
  | "ten" => some 10
  | "eleven" => some 11
  | "twelve" => some 12
  | "thirteen" => some 13
  | "fourteen" => some 14
  | "fifteen" => some 15
  | "sixteen" => some 16
  | "seventeen" => some 17
  | "eighteen" => some 18
  | "nineteen" => some 19
  | _ => none

/-- Base table EN_UNIT of the source (tens and the larger scales). -/
def EN_UNIT : String → Option Nat
  | "twenty" => some 20
  | "thirty" => some 30
  | "forty" => some 40
  | "fifty" => some 50
  | "sixty" => some 60
  | "seventy" => some 70
  | "eighty" => some 80
  | "ninety" => some 90
  | "hundred" => some 100
  | "thousand" => some 1000
  | "million" => some 1000000
  | "billion" => some 1000000000
  | "trillion" => some 1000000000000
  | _ => none

/-- Models str.lower() on the ASCII range (the only case-carrying characters
appearing in the tables and the claims): an uppercase ASCII letter is shifted
to its lowercase form, every other character is unchanged. -/
def pyLower (c : Char) : Char :=
  if 'A' ≤ c ∧ c ≤ 'Z' then Char.ofNat (c.toNat + 32) else c

/-- Models the single-character replacement replace of a hyphen by a space. -/
def replaceHyphen (c : Char) : Char :=
  if c = '-' then ' ' else c

/-- Models the whitespace test of str.split() with no argument on the common
ASCII whitespace characters. -/
def pyIsSpace (c : Char) : Bool :=
  c = ' ' || c = '\t' || c = '\n' || c = '\r'

/-- Helper of pySplit: acc holds the characters of the word in progress, in
reverse. -/
def pySplitAux : List Char → List Char → List String
  | [], acc => if acc = [] then [] else [String.mk acc.reverse]
  | c :: cs, acc =>
    if pyIsSpace c then
      if acc = [] then pySplitAux cs []
      else String.mk acc.reverse :: pySplitAux cs []
    else pySplitAux cs (c :: acc)

/-- Models str.split() with no argument: split on runs of whitespace,
producing no empty words. -/
def pySplit (cs : List Char) : List String :=
  pySplitAux cs []

/-- The word list of en2an: lower(), then replace of hyphens by spaces, then
split(). -/
def enWords (s : String) : List String :=
  pySplit ((s.data.map pyLower).map replaceHyphen)

/-- The word loop of en2an, carrying current_number and result. A coefficient
word adds its value to current_number; a base word of value at least 100
multiplies the group (with an implicit 1 when current_number is 0) into
result and resets current_number; a smaller base word adds its value to
current_number; the word and is skipped; any other word aborts with -1.
After the loop the remaining current_number is added to result. -/
def en2anLoop : List String → Int → Int → Int
  | [], current_number, result => result + current_number
  | w :: ws, current_number, result =>
    match EN_NUM w with
    | some v => en2anLoop ws (current_number + (v : Int)) result
    | none =>
      match EN_UNIT w with
      | some u =>
        if 100 ≤ u then
          en2anLoop ws 0
            (result + (if current_number = 0 then 1 else current_number) * (u : Int))
        else en2anLoop ws (current_number + (u : Int)) result
      | none => if w = "and" then en2anLoop ws current_number result else -1

/-- en2an of the source. -/
def en2an (s : String) : Int :=
  en2anLoop (enWords s) 0 0

/-- Word table AR_NUM of the source, including the two-word teen phrases and
the dual forms. -/
def AR_NUM : String → Option Nat
  | "صفر" => some 0
  | "واحد" => some 1
  | "اثنان" => some 2
  | "ثلاثة" => some 3
  | "أربعة" => some 4
  | "خمسة" => some 5
  | "ستة" => some 6
  | "سبعة" => some 7
  | "ثمانية" => some 8
  | "تسعة" => some 9
  | "عشرة" => some 10
  | "أحد عشر" => some 11
  | "اثنا عشر" => some 12
  | "ثلاثة عشر" => some 13
  | "أربعة عشر" => some 14
  | "خمسة عشر" => some 15
  | "ستة عشر" => some 16
  | "سبعة عشر" => some 17
  | "ثمانية عشر" => some 18
  | "تسعة عشر" => some 19
  | "عشرون" => some 20
  | "ثلاثون" => some 30
  | "أربعون" => some 40
  | "خمسون" => some 50
  | "ستون" => some 60
  | "سبعون" => some 70
  | "ثمانون" => some 80
  | "تسعون" => some 90
  | "مائة" => some 100
  | "مئتان" => some 200
  | "ثلاثمائة" => some 300
  | "ألف" => some 1000
  | "ألفان" => some 2000
  | "مليون" => some 1000000
  | "مليونان" => some 2000000
  | "مليار" => some 1000000000
  | "ملياران" => some 2000000000
  | "ترليون" => some 1000000000000
  | _ => none

/-- The Arabic conjunction word of the source. -/
def AR_CONJUNCTION : String := "و"

/-- The word loop of ar2an. At each position the two-word phrase formed with
the next word is looked up first; at the last position the slice of the source
degenerates to the single word itself, so a final word found in the table is
always added to current_number by this branch. Otherwise a single word of
value at least 1000 multiplies the group (with an implicit 1 when
current_number is 0) into result and resets current_number, a smaller value is
added to current_number, the conjunction is skipped, and any other word aborts
with -1. After the loop the remaining current_number is added to result. -/
def ar2anLoop : List String → Int → Int → Int
  | [], current_number, result => result + current_number
  | [w], current_number, result =>
    match AR_NUM w with
    | some v => result + (current_number + (v : Int))
    | none => if w = AR_CONJUNCTION then result + current_number else -1
  | w1 :: w2 :: ws, current_number, result =>
    match AR_NUM (w1 ++ " " ++ w2) with
    | some v => ar2anLoop ws (current_number + (v : Int)) result
    | none =>
      match AR_NUM w1 with
      | some v =>
        if 1000 ≤ v then
          ar2anLoop (w2 :: ws) 0
            (result + (if current_number = 0 then 1 else current_number) * (v : Int))
        else ar2anLoop (w2 :: ws) (current_number + (v : Int)) result
      | none =>
        if w1 = AR_CONJUNCTION then ar2anLoop (w2 :: ws) current_number result else -1

/-- ar2an of the source: plain split(), then the word loop. -/
def ar2an (s : String) : Int :=
  ar2anLoop (pySplit s.data) 0 0

/-- Recognition of characters in the words of claim C7: coefficient table,
base table, or ASCII digit. This follows the wording of the claim, not the
source, and is used only to test that wording against the code. -/
def asciiRecognized (c : Char) : Bool :=
  (CN_NUM c).isSome || (CN_UNIT c).isSome || c.isDigit

/-- Recognition of a word by the English loop in the sense of claim C3: a
coefficient word, a base word, or the conjunction. -/
def enRecognized (w : String) : Bool :=
  (EN_NUM w).isSome || (EN_UNIT w).isSome || w == "and"

/-- Token scan of the Arabic loop in the sense of claim C3: true when every
token, resolved after the two-word-phrase test exactly as the loop resolves
it, is a table word or the conjunction. -/
def arScanOk : List String → Bool
  | [] => true
  | [w] => (AR_NUM w).isSome || w == AR_CONJUNCTION
  | w1 :: w2 :: ws =>
    if (AR_NUM (w1 ++ " " ++ w2)).isSome then arScanOk ws
    else if (AR_NUM w1).isSome || w1 == AR_CONJUNCTION then arScanOk (w2 :: ws)
    else false

/-- Filtering a list to the elements on which f succeeds does not change its
filterMap by f. -/
theorem filterMap_filter_isSome {α β : Type} (f : α → Option β) :
    ∀ l : List α, (l.filter (fun c => (f c).isSome)).filterMap f = l.filterMap f
  | [] => rfl
  | c :: l => by
    cases hc : f c with
    | some v =>
      have hs : (f c).isSome = true := by simp [hc]
      simp [List.filter_cons, hs, List.filterMap_cons, hc,
        filterMap_filter_isSome f l]
    | none =>
      have hs : (f c).isSome = false := by simp [hc]
      simp [List.filter_cons, hs, List.filterMap_cons, hc,
        filterMap_filter_isSome f l]

/-- C1 (code_bug evidence): at the phrase of the claim the English accumulator
returns 1050305, because a hundreds group is folded into result at the word
hundred before the following larger multiplier thousand is seen; the claim and
the example comment in the source both expect 1350005. -/
theorem C1_en2an_value_at_failing_input :
    en2an "one million three hundred fifty thousand and five" = 1050305 := by decide

/-- C2 counterexample: the multiplier rule of the claim fails for the Arabic
variant. First conjunct: at the last position, the step equation demanded by
the claim (group 3 times multiplier 1000) does not hold, since the degenerate
two-word slice catches the final multiplier word and adds it to the group.
The remaining conjuncts record the end-to-end values: three-thousand gives
1003 instead of 3000, and three-hundred-one gives 104 instead of 301 because
the Arabic threshold is 1000, not 100. -/
theorem C2_counterexample :
    ar2anLoop ["ألف"] 3 0 ≠
      ar2anLoop [] 0 (0 + (if (3 : Int) = 0 then 1 else 3) * 1000) ∧
    ar2an "ثلاثة ألف" = 1003 ∧ ar2an "ثلاثة مائة واحد" = 104 := by decide

/-- C2 amended: for the English variant every word of table value at least 100
is processed, at every position including the last, as result gaining
group times value (group 1 when it was 0) with the group reset; for the Arabic
variant the same holds with threshold 1000 and only at positions where a next
word exists and the two-word phrase is not in the table. -/
theorem C2_amended_multiplier_step :
    (∀ (w : String) (ws : List String) (cur res : Int) (u : Nat),
      EN_NUM w = none → EN_UNIT w = some u → 100 ≤ u →
      en2anLoop (w :: ws) cur res =
        en2anLoop ws 0 (res + (if cur = 0 then 1 else cur) * (u : Int))) ∧
    (∀ (w w2 : String) (ws : List String) (cur res : Int) (u : Nat),
      AR_NUM (w ++ " " ++ w2) = none → AR_NUM w = some u → 1000 ≤ u →
      ar2anLoop (w :: w2 :: ws) cur res =
        ar2anLoop (w2 :: ws) 0 (res + (if cur = 0 then 1 else cur) * (u : Int))) := by
  constructor
  · intro w ws cur res u h1 h2 h3
    simp [en2anLoop, h1, h2, h3]
  · intro w w2 ws cur res u h1 h2 h3
    simp [ar2anLoop, h1, h2, h3]

/-- Witness for the amended C2 at concrete inputs: the word thousand after a
group of 3 at the last English position, and the word for thousand before a
following digit word at a non-final Arabic position. -/
theorem C2_amended_multiplier_step_witness :
    en2anLoop ["thousand"] 3 0 =
      en2anLoop [] 0 (0 + (if (3 : Int) = 0 then 1 else 3) * 1000) ∧
    ar2anLoop ["ألف", "واحد"] 3 0 =
      ar2anLoop ["واحد"] 0 (0 + (if (3 : Int) = 0 then 1 else 3) * 1000) :=
  ⟨C2_amended_multiplier_step.1 "thousand" [] 3 0 1000 (by decide) (by decide)
      (by decide),
   C2_amended_multiplier_step.2 "ألف" "واحد" [] 3 0 1000 (by decide) (by decide)
      (by decide)⟩

/-- C4: the positional converter fails (none, modelling the -1 sentinel)
exactly when no character of the input is recognized by the coefficient table,
the base table or the numeric-digit branch; the test happens on the token list
before any slot assembly, mirroring the source. -/
theorem C4_failure_iff_nothing_recognized (s : String) :
    cn2an s = none ↔ ∀ c ∈ s.data, charValue c = none := by
  have h : cnTokenize s.data = [] ↔ ∀ c ∈ s.data, charValue c = none := by
    simp [cnTokenize, List.filterMap_eq_nil_iff]
  rw [← h]
  unfold cn2an
  by_cases hc : cnTokenize s.data = []
  · simp [hc]
  · simp [hc]

/-- Witness for C4: the empty string fails. -/
theorem C4_failure_iff_nothing_recognized_witness : cn2an "" = none :=
  (C4_failure_iff_nothing_recognized "").mpr (by decide)

/-- C5: the four concrete input/output pairs of the positional converter. -/
theorem C5_concrete_pairs :
    cn2an "三三三" = some "333" ∧ cn2an "十一" = some "11" ∧
    cn2an "十" = some "10" ∧ cn2an "一百二十三" = some "123" := by decide

/-- C7 counterexample: the Arabic-Indic digit one is neither in the tables nor
an ASCII digit, so the deletion described by the claim removes it, yet the
code accepts it through the numeric-digit branch: the converter returns the
digit string 1 on it and the sentinel on the emptied input. -/
theorem C7_counterexample :
    cn2an "١" ≠ cn2an (String.mk (("١" : String).data.filter asciiRecognized)) ∧
    cn2an "١" = some "1" := by decide

/-- C7 amended: deleting every character recognized by none of the three
classifiers of the code (coefficient table, base table, decimal digit accepted
by int) leaves the result of the positional converter unchanged. -/
theorem C7_amended_deletion_invariance (s : String) :
    cn2an s = cn2an (String.mk (s.data.filter (fun c => (charValue c).isSome))) := by
  have key : cnTokenize ((String.mk
      (s.data.filter (fun c => (charValue c).isSome))).data) = cnTokenize s.data := by
    show cnTokenize (s.data.filter (fun c => (charValue c).isSome)) = cnTokenize s.data
    unfold cnTokenize
    rw [← List.filter_reverse]
    exact filterMap_filter_isSome charValue s.data.reverse
  unfold cn2an
  rw [key]

/-- Witness for the amended C7 at a concrete input mixing an unrecognized
letter with a recognized numeral character. -/
theorem C7_amended_deletion_invariance_witness :
    cn2an "a一" = cn2an (String.mk (("a一" : String).data.filter
      (fun c => (charValue c).isSome))) :=
  C7_amended_deletion_invariance "a一"

/-- C8: recognition of the English accumulator is case-insensitive (two
phrases with the same lowercase image convert equally) and a hyphen between
two words behaves as a space. -/
theorem C8_case_insensitive_and_hyphen_separator :
    (∀ s t : String, s.data.map pyLower = t.data.map pyLower → en2an s = en2an t) ∧
    (∀ u v : List Char,
      en2an (String.mk (u ++ '-' :: v)) = en2an (String.mk (u ++ ' ' :: v))) := by
  constructor
  · intro s t h
    unfold en2an enWords
    rw [h]
  · intro u v
    unfold en2an enWords
    have h1 : replaceHyphen (pyLower '-') = ' ' := by decide
    have h2 : replaceHyphen (pyLower ' ') = ' ' := by decide
    have key : (((String.mk (u ++ '-' :: v)).data.map pyLower).map replaceHyphen) =
        (((String.mk (u ++ ' ' :: v)).data.map pyLower).map replaceHyphen) := by
      show (((u ++ '-' :: v).map pyLower).map replaceHyphen) =
        (((u ++ ' ' :: v).map pyLower).map replaceHyphen)
      simp [List.map_append, List.map_cons, h1, h2]
    rw [key]

/-- Witness for C8: a mixed-case word and a hyphenated pair of tens words. -/
theorem C8_case_insensitive_and_hyphen_separator_witness :
    en2an "One" = en2an "oNE" ∧
    en2an (String.mk ("twenty".data ++ '-' :: "three".data)) =
      en2an (String.mk ("twenty".data ++ ' ' :: "three".data)) :=
  ⟨C8_case_insensitive_and_hyphen_separator.1 "One" "oNE" (by decide),
   C8_case_insensitive_and_hyphen_separator.2 "twenty".data "three".data⟩

/-- A split of a list of whitespace characters produces no words. -/
theorem pySplitAux_all_space :
    ∀ l : List Char, (∀ c ∈ l, pyIsSpace c = true) → pySplitAux l [] = []
  | [], _ => rfl
  | c :: l, h => by
    have hc : pyIsSpace c = true := h c (List.mem_cons_self c l)
    simpa [pySplitAux, hc] using
      pySplitAux_all_space l (fun x hx => h x (List.mem_cons_of_mem c hx))

/-- lower() and the hyphen replacement leave whitespace characters unchanged. -/
theorem space_fixed_by_preprocessing (c : Char) (h : pyIsSpace c = true) :
    replaceHyphen (pyLower c) = c := by
  simp [pyIsSpace] at h
  rcases h with ((rfl | rfl) | rfl) | rfl <;> decide

/-- C10: an empty or whitespace-only phrase makes both accumulators return 0,
a success value distinct from the -1 sentinel. -/
theorem C10_empty_phrase_returns_zero (s : String)
    (h : ∀ c ∈ s.data, pyIsSpace c = true) : en2an s = 0 ∧ ar2an s = 0 := by
  have hfix : ∀ l : List Char, (∀ c ∈ l, pyIsSpace c = true) →
      l.map (replaceHyphen ∘ pyLower) = l := by
    intro l
    induction l with
    | nil => intro _; rfl
    | cons c l ih =>
      intro hl
      simp only [List.map_cons, Function.comp_apply]
      rw [space_fixed_by_preprocessing c (hl c (List.mem_cons_self c l)),
        ih (fun x hx => hl x (List.mem_cons_of_mem c hx))]
  have hmap : ((s.data.map pyLower).map replaceHyphen) = s.data := by
    rw [List.map_map]
    exact hfix s.data h
  constructor
  · unfold en2an enWords pySplit
    rw [hmap, pySplitAux_all_space s.data h]
    decide
  · unfold ar2an pySplit
    rw [pySplitAux_all_space s.data h]
    decide

/-- Witness for C10: the empty string and a one-space string. -/
theorem C10_empty_phrase_returns_zero_witness : en2an "" = 0 ∧ ar2an " " = 0 :=
  ⟨(C10_empty_phrase_returns_zero "" (by decide)).1,
   (C10_empty_phrase_returns_zero " " (by decide)).2⟩

/-- An unrecognized word anywhere in the list forces the English loop to
return the sentinel, whatever the accumulated state. -/
theorem en2anLoop_unknown : ∀ (ws : List String) (cur res : Int),
    (∃ w ∈ ws, enRecognized w = false) → en2anLoop ws cur res = -1 := by
  intro ws
  induction ws with
  | nil => intro cur res h; simp at h
  | cons w ws ih =>
    intro cur res h
    by_cases hw : enRecognized w = false
    · have h1 : EN_NUM w = none := by
        cases hEN : EN_NUM w with
        | none => rfl
        | some v => simp [enRecognized, hEN] at hw
      have h2 : EN_UNIT w = none := by
        cases hEU : EN_UNIT w with
        | none => rfl
        | some v => simp [enRecognized, hEU] at hw
      have h3 : ¬ w = "and" := by
        intro hand
        rw [hand] at hw
        exact absurd hw (by decide)
      simp [en2anLoop, h1, h2, h3]
    · have hx : ∃ x ∈ ws, enRecognized x = false := by
        rcases h with ⟨x, hx, hxf⟩
        rcases List.mem_cons.mp hx with rfl | hxs
        · exact absurd hxf hw
        · exact ⟨x, hxs, hxf⟩
      cases hEN : EN_NUM w with
      | some v =>
        rw [show en2anLoop (w :: ws) cur res = en2anLoop ws (cur + (v : Int)) res from
          by simp [en2anLoop, hEN]]
        exact ih _ _ hx
      | none =>
        cases hEU : EN_UNIT w with
        | some u =>
          by_cases hu : 100 ≤ u
          · rw [show en2anLoop (w :: ws) cur res = en2anLoop ws 0
                (res + (if cur = 0 then 1 else cur) * (u : Int)) from
              by simp [en2anLoop, hEN, hEU, hu]]
            exact ih _ _ hx
          · rw [show en2anLoop (w :: ws) cur res =
                en2anLoop ws (cur + (u : Int)) res from
              by simp [en2anLoop, hEN, hEU, hu]]
            exact ih _ _ hx
        | none =>
          have hand : w = "and" := by
            revert hw
            simp [enRecognized, hEN, hEU]
          rw [show en2anLoop (w :: ws) cur res = en2anLoop ws cur res from by
            simp only [en2anLoop, hEN, hEU]
            rw [if_pos hand]]
          exact ih _ _ hx

/-- A failed token scan forces the Arabic loop to return the sentinel,
whatever the accumulated state. -/
theorem ar2anLoop_unknown : ∀ (ws : List String) (cur res : Int),
    arScanOk ws = false → ar2anLoop ws cur res = -1
  | [], _, _, h => by simp [arScanOk] at h
  | [w], cur, res, h => by
    cases hA : AR_NUM w with
    | some v => simp [arScanOk, hA] at h
    | none =>
      have hconj : ¬ w = AR_CONJUNCTION := by
        revert h
        simp [arScanOk, hA]
      simp [ar2anLoop, hA, hconj]
  | w1 :: w2 :: ws, cur, res, h => by
    cases h2 : AR_NUM (w1 ++ " " ++ w2) with
    | some v =>
      rw [show ar2anLoop (w1 :: w2 :: ws) cur res =
          ar2anLoop ws (cur + (v : Int)) res from by simp [ar2anLoop, h2]]
      exact ar2anLoop_unknown ws _ _ (by simpa [arScanOk, h2] using h)
    | none =>
      cases h1 : AR_NUM w1 with
      | some v =>
        have hrest : arScanOk (w2 :: ws) = false := by
          simpa [arScanOk, h2, h1] using h
        by_cases hv : 1000 ≤ v
        · rw [show ar2anLoop (w1 :: w2 :: ws) cur res = ar2anLoop (w2 :: ws) 0
              (res + (if cur = 0 then 1 else cur) * (v : Int)) from
            by simp [ar2anLoop, h2, h1, hv]]
          exact ar2anLoop_unknown (w2 :: ws) _ _ hrest
        · rw [show ar2anLoop (w1 :: w2 :: ws) cur res =
              ar2anLoop (w2 :: ws) (cur + (v : Int)) res from
            by simp [ar2anLoop, h2, h1, hv]]
          exact ar2anLoop_unknown (w2 :: ws) _ _ hrest
      | none =>
        by_cases hconj : w1 = AR_CONJUNCTION
        · rw [show ar2anLoop (w1 :: w2 :: ws) cur res =
              ar2anLoop (w2 :: ws) cur res from by
            simp only [ar2anLoop, h2, h1]
            rw [if_pos hconj]]
          exact ar2anLoop_unknown (w2 :: ws) _ _
            (by simpa [arScanOk, h2, h1, hconj] using h)
        · simp [ar2anLoop, h2, h1, hconj]

/-- C3: a single token that is not a recognized digit word, tens word,
multiplier word or conjunction, wherever it occurs after case folding, hyphen
splitting, and (for Arabic) the two-word-phrase test, makes the conversion
return the -1 sentinel with no partial credit. -/
theorem C3_unrecognized_token_fails :
    (∀ s : String, (∃ w ∈ enWords s, enRecognized w = false) → en2an s = -1) ∧
    (∀ s : String, arScanOk (pySplit s.data) = false → ar2an s = -1) :=
  ⟨fun _ h => en2anLoop_unknown _ 0 0 h,
   fun _ h => ar2anLoop_unknown _ 0 0 h⟩

/-- Witness for C3: an unknown word in the middle of an otherwise valid
English phrase, and an unknown word after a valid Arabic word. -/
theorem C3_unrecognized_token_fails_witness :
    en2an "one blorp two" = -1 ∧ ar2an "واحد xyz" = -1 :=
  ⟨C3_unrecognized_token_fails.1 "one blorp two" (by decide),
   C3_unrecognized_token_fails.2 "واحد xyz" (by decide)⟩

/-- On nonnegative accumulated state the English loop returns the sentinel or
a nonnegative value. -/
theorem en2anLoop_nonneg : ∀ (ws : List String) (cur res : Int), 0 ≤ cur → 0 ≤ res →
    en2anLoop ws cur res = -1 ∨ 0 ≤ en2anLoop ws cur res := by
  intro ws
  induction ws with
  | nil =>
    intro cur res hc hr
    right
    rw [show en2anLoop [] cur res = res + cur from rfl]
    omega
  | cons w ws ih =>
    intro cur res hc hr
    cases hEN : EN_NUM w with
    | some v =>
      rw [show en2anLoop (w :: ws) cur res = en2anLoop ws (cur + (v : Int)) res from
        by simp [en2anLoop, hEN]]
      exact ih _ _ (by omega) hr
    | none =>
      cases hEU : EN_UNIT w with
      | some u =>
        by_cases hu : 100 ≤ u
        · rw [show en2anLoop (w :: ws) cur res = en2anLoop ws 0
              (res + (if cur = 0 then 1 else cur) * (u : Int)) from
            by simp [en2anLoop, hEN, hEU, hu]]
          have hgroup : 0 ≤ (if cur = 0 then 1 else cur) * (u : Int) := by
            apply mul_nonneg _ (Int.natCast_nonneg u)
            split <;> omega
          exact ih _ _ le_rfl (by omega)
        · rw [show en2anLoop (w :: ws) cur res =
              en2anLoop ws (cur + (u : Int)) res from
            by simp [en2anLoop, hEN, hEU, hu]]
          exact ih _ _ (by omega) hr
      | none =>
        by_cases hand : w = "and"
        · rw [show en2anLoop (w :: ws) cur res = en2anLoop ws cur res from by
            simp only [en2anLoop, hEN, hEU]
            rw [if_pos hand]]
          exact ih _ _ hc hr
        · left
          simp [en2anLoop, hEN, hEU, hand]

/-- On nonnegative accumulated state the Arabic loop returns the sentinel or
a nonnegative value. -/
theorem ar2anLoop_nonneg : ∀ (ws : List String) (cur res : Int), 0 ≤ cur → 0 ≤ res →
    ar2anLoop ws cur res = -1 ∨ 0 ≤ ar2anLoop ws cur res
  | [], cur, res, hc, hr => by
    right
    rw [show ar2anLoop [] cur res = res + cur from rfl]
    omega
  | [w], cur, res, hc, hr => by
    cases hA : AR_NUM w with
    | some v =>
      right
      rw [show ar2anLoop [w] cur res = res + (cur + (v : Int)) from
        by simp [ar2anLoop, hA]]
      have := Int.natCast_nonneg v
      omega
    | none =>
      by_cases hconj : w = AR_CONJUNCTION
      · right
        rw [show ar2anLoop [w] cur res = res + cur from by
          simp only [ar2anLoop, hA]
          rw [if_pos hconj]]
        omega
      · left
        simp [ar2anLoop, hA, hconj]
  | w1 :: w2 :: ws, cur, res, hc, hr => by
    cases h2 : AR_NUM (w1 ++ " " ++ w2) with
    | some v =>
      rw [show ar2anLoop (w1 :: w2 :: ws) cur res =
          ar2anLoop ws (cur + (v : Int)) res from by simp [ar2anLoop, h2]]
      have := Int.natCast_nonneg v
      exact ar2anLoop_nonneg ws _ _ (by omega) hr
    | none =>
      cases h1 : AR_NUM w1 with
      | some v =>
        by_cases hv : 1000 ≤ v
        · rw [show ar2anLoop (w1 :: w2 :: ws) cur res = ar2anLoop (w2 :: ws) 0
              (res + (if cur = 0 then 1 else cur) * (v : Int)) from
            by simp [ar2anLoop, h2, h1, hv]]
          have hgroup : 0 ≤ (if cur = 0 then 1 else cur) * (v : Int) := by
            apply mul_nonneg _ (Int.natCast_nonneg v)
            split <;> omega
          exact ar2anLoop_nonneg (w2 :: ws) _ _ le_rfl (by omega)
        · rw [show ar2anLoop (w1 :: w2 :: ws) cur res =
              ar2anLoop (w2 :: ws) (cur + (v : Int)) res from
            by simp [ar2anLoop, h2, h1, hv]]
          have := Int.natCast_nonneg v
          exact ar2anLoop_nonneg (w2 :: ws) _ _ (by omega) hr
      | none =>
        by_cases hconj : w1 = AR_CONJUNCTION
        · rw [show ar2anLoop (w1 :: w2 :: ws) cur res =
              ar2anLoop (w2 :: ws) cur res from by
            simp only [ar2anLoop, h2, h1]
            rw [if_pos hconj]]
          exact ar2anLoop_nonneg (w2 :: ws) _ _ hc hr
        · left
          simp [ar2anLoop, h2, h1, hconj]

/-- Every slot produced by the assembly step is the -1 placeholder or a digit
between 0 and 9: digits are only appended under the branch testing t at most
9 and the padding loop appends only -1. -/
theorem cnAssemble_mem : ∀ (l : List Nat) (curW : Nat) (n : Int),
    n ∈ cnAssemble l curW → n = -1 ∨ (0 ≤ n ∧ n ≤ 9)
  | [], _, n, h => by simp [cnAssemble] at h
  | t :: rest, curW, n, h => by
    by_cases ht : 9 < t
    · simp only [cnAssemble, if_pos ht, List.mem_append] at h
      rcases h with h | h
      · left
        exact List.eq_of_mem_replicate h
      · exact cnAssemble_mem rest _ n h
    · simp only [cnAssemble, if_neg ht, List.mem_cons] at h
      rcases h with rfl | h
      · right
        constructor <;> omega
      · exact cnAssemble_mem rest _ n h

/-- The fixup rule only moves values already present and writes a 0, so any
property holding of 0 and all slots is preserved. -/
theorem cnFixup_mem (seq : List Int) (P : Int → Prop) (hP0 : P 0)
    (hseq : ∀ n ∈ seq, P n) : ∀ n ∈ cnFixup seq, P n := by
  intro n hn
  cases seq with
  | nil => simp [cnFixup] at hn
  | cons s0 rest =>
    have hn2 : n ∈ (if 0 < s0 ∧ 1 < (s0 :: rest).length ∧
        (s0 :: rest).get? 1 = some (-1) then
        ((s0 :: rest).set (cnScanFrom (s0 :: rest) 1 - 1) s0).set 0 0
      else s0 :: rest) := hn
    split at hn2
    · rcases List.mem_or_eq_of_mem_set hn2 with hn1 | rfl
      · rcases List.mem_or_eq_of_mem_set hn1 with hn3 | rfl
        · exact hseq n hn3
        · exact hseq _ (List.mem_cons_self _ rest)
      · exact hP0
    · exact hseq n hn2

/-- Printing an integer between 0 and 9 yields a single decimal digit
character. -/
theorem toString_small_int_digits : ∀ m : Int, 0 ≤ m → m ≤ 9 →
    ∀ c ∈ (toString m).data, c.isDigit = true := by
  intro m h1 h2
  interval_cases m <;> decide

/-- If every slot is the placeholder or a digit between 0 and 9, the rendered
string consists of decimal digit characters only. -/
theorem cnRender_digits (seq : List Int)
    (h : ∀ n ∈ seq, n = -1 ∨ (0 ≤ n ∧ n ≤ 9)) :
    ∀ c ∈ (cnRender seq).data, c.isDigit = true := by
  intro c hc
  have hc2 : c ∈ ((seq.reverse).map
      (fun n => (toString (if 0 ≤ n then n else 0)).data)).flatten := hc
  rcases List.mem_flatten.mp hc2 with ⟨piece, hpiece, hcp⟩
  rcases List.mem_map.mp hpiece with ⟨n, hnrev, rfl⟩
  have hn := h n (List.mem_reverse.mp hnrev)
  have hr1 : 0 ≤ (if 0 ≤ n then n else 0) := by split <;> omega
  have hr2 : (if 0 ≤ n then n else 0) ≤ 9 := by
    rcases hn with rfl | ⟨ha, hb⟩ <;> split <;> omega
  exact toString_small_int_digits _ hr1 hr2 c hcp

/-- C6: the accumulator family never returns a negative value other than the
-1 sentinel, and every successful result of the positional converter is a
string of decimal digit characters only. -/
theorem C6_sentinel_and_digit_string :
    (∀ s : String, en2an s = -1 ∨ 0 ≤ en2an s) ∧
    (∀ s : String, ar2an s = -1 ∨ 0 ≤ ar2an s) ∧
    (∀ s r : String, cn2an s = some r → ∀ c ∈ r.data, c.isDigit = true) := by
  refine ⟨fun _ => en2anLoop_nonneg _ 0 0 le_rfl le_rfl,
    fun _ => ar2anLoop_nonneg _ 0 0 le_rfl le_rfl, ?_⟩
  intro s r hr
  unfold cn2an at hr
  split at hr
  · exact absurd hr (by simp)
  · have hreq : r = cnRender (cnFixup (cnAssemble (cnNormalize (cnTokenize s.data)) 0)) :=
      (Option.some_inj.mp hr).symm
    subst hreq
    exact cnRender_digits _
      (cnFixup_mem _ _ (Or.inr ⟨le_rfl, by omega⟩) (fun n hn => cnAssemble_mem _ _ n hn))

/-- Witness for C6 at concrete inputs: a digit word and a one-character
Chinese numeral. -/
theorem C6_sentinel_and_digit_string_witness :
    (en2an "five" = -1 ∨ 0 ≤ en2an "five") ∧
    (∀ c ∈ ("3" : String).data, c.isDigit = true) :=
  ⟨C6_sentinel_and_digit_string.1 "five",
   C6_sentinel_and_digit_string.2.2 "三" "3" (by decide)⟩

/-- The tmp2 list always ends with a digit of value at most 9: a final base is
emitted together with a trailing 1, a base before a digit is followed by that
digit, and a base folding into the next base emits nothing. -/
theorem cnNormalizeAux_last : ∀ (fuel : Nat) (l : List Nat), l.length ≤ fuel →
    l ≠ [] → ∃ l0 d, cnNormalizeAux fuel l = l0 ++ [d] ∧ d ≤ 9
  | 0, l, hle, hne => by
    cases l with
    | nil => exact absurd rfl hne
    | cons a l => simp at hle
  | _ + 1, [], _, hne => absurd rfl hne
  | _ + 1, [t], _, _ => by
    by_cases h9 : 9 < t
    · exact ⟨[t], 1, by simp [cnNormalizeAux, h9], by omega⟩
    · exact ⟨[], t, by simp [cnNormalizeAux, h9], by omega⟩
  | fuel + 1, t :: t2 :: rest, hle, _ => by
    have hlen : (t2 :: rest).length ≤ fuel := by
      simp at hle ⊢
      omega
    have hlen2 : (t * t2 :: rest).length ≤ fuel := by
      simp at hle ⊢
      omega
    by_cases h9 : 9 < t
    · by_cases hgt : t < t2
      · obtain ⟨l0, d, heq, hd⟩ :=
          cnNormalizeAux_last fuel (t2 :: rest) hlen (by simp)
        exact ⟨t :: 1 :: l0, d, by simp [cnNormalizeAux, h9, hgt, heq], hd⟩
      · by_cases h92 : 9 < t2
        · obtain ⟨l0, d, heq, hd⟩ :=
            cnNormalizeAux_last fuel (t * t2 :: rest) hlen2 (by simp)
          exact ⟨l0, d, by simp [cnNormalizeAux, h9, hgt, h92, heq], hd⟩
        · obtain ⟨l0, d, heq, hd⟩ :=
            cnNormalizeAux_last fuel (t2 :: rest) hlen (by simp)
          exact ⟨t :: l0, d, by simp [cnNormalizeAux, h9, hgt, h92, heq], hd⟩
    · obtain ⟨l0, d, heq, hd⟩ :=
        cnNormalizeAux_last fuel (t2 :: rest) hlen (by simp)
      exact ⟨t :: l0, d, by simp [cnNormalizeAux, h9, heq], hd⟩

/-- A token list ending with a digit of value at most 9 assembles to a slot
list ending with that digit. -/
theorem cnAssemble_last : ∀ (l0 : List Nat) (d curW : Nat), d ≤ 9 →
    ∃ s0, cnAssemble (l0 ++ [d]) curW = s0 ++ [(d : Int)]
  | [], d, curW, hd =>
    ⟨[], by simp [cnAssemble, show ¬ 9 < d from by omega]⟩
  | t :: l0, d, curW, hd => by
    by_cases ht : 9 < t
    · obtain ⟨s0, hs0⟩ := cnAssemble_last l0 d (max curW (log10 t)) hd
      exact ⟨List.replicate (log10 t - curW) (-1) ++ s0, by
        simp [cnAssemble, ht, hs0]⟩
    · obtain ⟨s0, hs0⟩ := cnAssemble_last l0 d (curW + 1) hd
      exact ⟨(t : Int) :: s0, by simp [cnAssemble, ht, hs0]⟩

/-- When some slot at or after the start index is not the -1 placeholder, the
scan of the fixup rule stops at an in-range index holding such a slot. -/
theorem cnScanFromAux_finds : ∀ (fuel : Nat) (seq : List Int) (p : Nat),
    seq.length - p ≤ fuel →
    (∃ j, p ≤ j ∧ ∃ v, seq.get? j = some v ∧ v ≠ -1) →
    cnScanFromAux fuel seq p < seq.length ∧
      ∃ v, seq.get? (cnScanFromAux fuel seq p) = some v ∧ v ≠ -1
  | 0, seq, p, hfuel, hex => by
    exfalso
    obtain ⟨j, hj, v, hv, _⟩ := hex
    have hjlen : j < seq.length := (List.get?_eq_some.mp hv).1
    omega
  | fuel + 1, seq, p, hfuel, hex => by
    obtain ⟨j, hj, v, hv, hvne⟩ := hex
    have hjlen : j < seq.length := (List.get?_eq_some.mp hv).1
    by_cases hp : seq.get? p = some (-1)
    · rw [show cnScanFromAux (fuel + 1) seq p = cnScanFromAux fuel seq (p + 1) from by
        simp only [cnScanFromAux]
        rw [if_pos hp]]
      apply cnScanFromAux_finds fuel seq (p + 1) (by omega)
      have hne : j ≠ p := by
        rintro rfl
        rw [hv] at hp
        exact hvne (Option.some_inj.mp hp)
      exact ⟨j, by omega, v, hv, hvne⟩
    · rw [show cnScanFromAux (fuel + 1) seq p = p from by
        simp only [cnScanFromAux]
        rw [if_neg hp]]
      cases hgp : seq.get? p with
      | none =>
        exfalso
        have := List.get?_eq_none.mp hgp
        omega
      | some w =>
        exact ⟨(List.get?_eq_some.mp hgp).1, w, rfl,
          fun hw => hp (by rw [hgp, hw])⟩

/-- C9: on any input with at least one recognized character, the slot list
built by the assembly step is non-empty and ends with a filled digit, and
whenever the list has more than one slot the forward scan of the fixup rule
stops strictly inside the list at a non-placeholder slot, so the read of the
first slot and the write at the preceding position are in range. -/
theorem C9_assembly_shape_and_scan_in_range (s : String)
    (h : cnTokenize s.data ≠ []) :
    cnAssemble (cnNormalize (cnTokenize s.data)) 0 ≠ [] ∧
    (∃ (s0 : List Int) (d : Nat), cnAssemble (cnNormalize (cnTokenize s.data)) 0 = s0 ++ [(d : Int)] ∧
      d ≤ 9) ∧
    (1 < (cnAssemble (cnNormalize (cnTokenize s.data)) 0).length →
      cnScanFrom (cnAssemble (cnNormalize (cnTokenize s.data)) 0) 1 <
        (cnAssemble (cnNormalize (cnTokenize s.data)) 0).length ∧
      ∃ v, (cnAssemble (cnNormalize (cnTokenize s.data)) 0).get?
          (cnScanFrom (cnAssemble (cnNormalize (cnTokenize s.data)) 0) 1) = some v ∧
        v ≠ -1) := by
  obtain ⟨l0, d, heq, hd⟩ :=
    cnNormalizeAux_last (cnTokenize s.data).length (cnTokenize s.data) le_rfl h
  have heq2 : cnNormalize (cnTokenize s.data) = l0 ++ [d] := heq
  obtain ⟨s0, hs0⟩ := cnAssemble_last l0 d 0 hd
  rw [heq2, hs0]
  refine ⟨by simp, ⟨s0, d, rfl, hd⟩, ?_⟩
  intro hlen
  have hs0len : 1 ≤ s0.length := by
    simp at hlen
    omega
  have hget : (s0 ++ [(d : Int)]).get? s0.length = some (d : Int) :=
    List.get?_concat_length s0 _
  have hdne : (d : Int) ≠ -1 := by omega
  exact cnScanFromAux_finds (s0 ++ [(d : Int)]).length (s0 ++ [(d : Int)]) 1
    (by omega) ⟨s0.length, hs0len, (d : Int), hget, hdne⟩

/-- Witness for C9 at the one-character input whose slot list is a
placeholder followed by a digit. -/
theorem C9_assembly_shape_and_scan_in_range_witness :
    cnAssemble (cnNormalize (cnTokenize ("十" : String).data)) 0 ≠ [] ∧
    (∃ (s0 : List Int) (d : Nat), cnAssemble (cnNormalize (cnTokenize ("十" : String).data)) 0 =
      s0 ++ [(d : Int)] ∧ d ≤ 9) ∧
    (1 < (cnAssemble (cnNormalize (cnTokenize ("十" : String).data)) 0).length →
      cnScanFrom (cnAssemble (cnNormalize (cnTokenize ("十" : String).data)) 0) 1 <
        (cnAssemble (cnNormalize (cnTokenize ("十" : String).data)) 0).length ∧
      ∃ v, (cnAssemble (cnNormalize (cnTokenize ("十" : String).data)) 0).get?
          (cnScanFrom (cnAssemble (cnNormalize (cnTokenize ("十" : String).data)) 0) 1) =
            some v ∧ v ≠ -1) :=
  C9_assembly_shape_and_scan_in_range "十" (by decide)
